import Mathlib

/-!
Verification of the Enrollment & Progress Tracking Engine of an e-learning
backend.  The data model (courses, modules, lessons, enrollments, progress
records) and the operations exposed by the HTTP views are embedded shallowly:
the database is an explicit record of lists, every view is a pure function
from a database (and the acting user, plus an explicit clock value) to a
result together with the successor database.

Views present in the source (`views.py`, `serializers.py`) are translated
directly; model-level methods whose bodies are not part of the provided
source (the rollup, seeding signal, aggregator methods) are modelled from the
specification and say so in their doc comments.
-/

namespace Elearn

/-- A user account; `role` is the string stored by the `User` model
(`student` or `instructor`), and `is_student` in the source is the test
`role == 'student'`. -/
structure User where
  id : Nat
  role : String
deriving Repr, DecidableEq

/-- A course: identified by a slug, with a lifecycle `status` string
(`published`, `draft`, ...). -/
structure Course where
  id : Nat
  slug : String
  status : String
deriving Repr, DecidableEq

/-- A module of a course, carrying its position `order` within the course. -/
structure Module where
  id : Nat
  courseId : Nat
  order : Nat
deriving Repr, DecidableEq

/-- A lesson of a module, carrying its position `order` within the module
and a duration in minutes. -/
structure Lesson where
  id : Nat
  moduleId : Nat
  order : Nat
  durationMinutes : Nat
deriving Repr, DecidableEq

/-- An enrollment of a student in a course.  `completedAt` is the rollup
timestamp, `isActive` the active flag cleared by unenroll. -/
structure Enrollment where
  id : Nat
  studentId : Nat
  courseId : Nat
  enrolledAt : Int
  completedAt : Option Int
  isActive : Bool
deriving Repr, DecidableEq

/-- A progress record: the completion state of one lesson for one
enrollment. -/
structure Progress where
  enrollmentId : Nat
  lessonId : Nat
  completed : Bool
  completedAt : Option Int
  lastAccessed : Option Int
deriving Repr, DecidableEq

/-- The visible database state. -/
structure DB where
  courses : List Course
  modules : List Module
  lessons : List Lesson
  enrollments : List Enrollment
  progresses : List Progress
deriving Repr, DecidableEq

/-- Error kinds surfaced by the views: 403 (not a student), 404
(`get_object_or_404` misses), and the 400 returned on a duplicate
enrollment. -/
inductive ApiError where
  | permissionDenied
  | notFound
  | alreadyEnrolled
deriving Repr, DecidableEq

/-- The lessons belonging to a course: lessons whose module belongs to the
course (`Lesson.objects.filter(module__course=course)`). -/
def courseLessons (db : DB) (cid : Nat) : List Lesson :=
  db.lessons.filter fun l =>
    (db.modules.find? fun m => m.id = l.moduleId).any fun m => m.courseId = cid

/-- The sort key of a lesson in the canonical ordering: its module's `order`
first, then its own `order`. -/
def lessonKey (db : DB) (l : Lesson) : Nat × Nat :=
  (((db.modules.find? fun m => m.id = l.moduleId).map Module.order).getD 0, l.order)

/-- Lexicographic comparison of sort keys. -/
def keyLe (a b : Nat × Nat) : Bool :=
  a.1 < b.1 || (a.1 = b.1 && a.2 ≤ b.2)

/-- The canonical order on lessons: compare sort keys lexicographically. -/
def lessonLe (db : DB) (a b : Lesson) : Prop :=
  keyLe (lessonKey db a) (lessonKey db b) = true

instance (db : DB) : DecidableRel (lessonLe db) := fun a b => by
  unfold lessonLe
  infer_instance

instance (db : DB) : IsTotal Lesson (lessonLe db) :=
  ⟨fun a b => by
    simp only [lessonLe, keyLe, Bool.or_eq_true, Bool.and_eq_true, decide_eq_true_eq]
    omega⟩

instance (db : DB) : IsTrans Lesson (lessonLe db) :=
  ⟨fun a b c h1 h2 => by
    simp only [lessonLe, keyLe, Bool.or_eq_true, Bool.and_eq_true,
      decide_eq_true_eq] at h1 h2 ⊢
    omega⟩

/-- The canonical lesson sequence of a course: its lessons sorted by
(module order, lesson order). -/
def lessonsOf (db : DB) (cid : Nat) : List Lesson :=
  List.insertionSort (lessonLe db) (courseLessons db cid)

/-- The progress records owned by the enrollment with id `eid`. -/
def enrollmentRecords (db : DB) (eid : Nat) : List Progress :=
  db.progresses.filter fun p => p.enrollmentId = eid

/-- Number of completed progress records of an enrollment
(`get_completed_lessons_count`). -/
def completedCount (db : DB) (eid : Nat) : Nat :=
  (enrollmentRecords db eid).countP fun p => p.completed

/-- Number of progress records of an enrollment (the enrollment-time lesson
snapshot). -/
def totalCount (db : DB) (eid : Nat) : Nat :=
  (enrollmentRecords db eid).length

/-- Modelled from the spec: `Enrollment.progress_percentage` has no visible
body in the source; per §4.3 it is `round(100 * completed_count /
total_count)` over the enrollment's progress records, `0` when
`total_count == 0`.  Rounding half away from zero is realised on naturals as
`(200 * c + t) / (2 * t)` with floor division. -/
def progress_percentage (db : DB) (eid : Nat) : Nat :=
  let t := totalCount db eid
  let c := completedCount db eid
  if t = 0 then 0 else (200 * c + t) / (2 * t)

/-- Modelled from the spec: `Enrollment.is_completed` has no visible body in
the source; per §4.3 it is `completed_count == total_count and total_count >
0`. -/
def is_completed (db : DB) (eid : Nat) : Bool :=
  decide (0 < totalCount db eid) && decide (completedCount db eid = totalCount db eid)

/-- Does the enrollment `eid` hold an incomplete progress record for lesson
`l`? -/
def incompleteFor (db : DB) (eid : Nat) (l : Lesson) : Bool :=
  (enrollmentRecords db eid).any fun p => p.lessonId = l.id && !p.completed

/-- Modelled from the spec: `Enrollment.get_next_lesson` has no visible body
in the source; per §4.3 it scans the canonical lesson sequence and returns
the first lesson whose progress record is incomplete. -/
def get_next_lesson (db : DB) (e : Enrollment) : Option Lesson :=
  (lessonsOf db e.courseId).find? fun l => incompleteFor db e.id l

/-- Modelled from the spec: `Course.total_lessons` is a derived, never
stored count of the lessons currently in the course. -/
def course_total_lessons (db : DB) (cid : Nat) : Nat :=
  (courseLessons db cid).length

/-- `EnrollmentSerializer.get_total_lessons` (serializers.py): returns
`obj.course.total_lessons`, the course's current lesson count. -/
def get_total_lessons (db : DB) (e : Enrollment) : Nat :=
  course_total_lessons db e.courseId

/-- Modelled from the spec: `Enrollment.get_total_time_spent` has no visible
body in the source; per §4.3 it sums `duration_minutes` over completed
lessons only. -/
def get_total_time_spent (db : DB) (e : Enrollment) : Nat :=
  ((courseLessons db e.courseId).filter fun l =>
    (enrollmentRecords db e.id).any fun p => p.lessonId = l.id && p.completed).foldr
    (fun l acc => l.durationMinutes + acc) 0

/-- The most recent `completed_at` among an enrollment's completed records,
with the enrollment's creation time as the lower bound of the span. -/
def latestCompletion (db : DB) (e : Enrollment) : Int :=
  ((enrollmentRecords db e.id).filterMap fun p =>
    if p.completed then p.completedAt else none).foldl max e.enrolledAt

/-- Modelled from the spec: `Enrollment.calculate_estimated_completion_date`
has no visible body in the source; per §4.3 it returns none (serialized as
null) when no lesson is completed, the enrollment's own `completed_at` when
nothing remains, and otherwise extrapolates `now + pace * remaining` with
`pace = elapsed / completed_count`. -/
def calculate_estimated_completion_date (db : DB) (e : Enrollment) (now : Int) :
    Option ℚ :=
  let c := completedCount db e.id
  let t := totalCount db e.id
  if c = 0 then none
  else if t - c = 0 then e.completedAt.map fun x => (x : ℚ)
  else
    let elapsed : ℚ := ((latestCompletion db e : ℚ) - (e.enrolledAt : ℚ))
    some ((now : ℚ) + (elapsed / (c : ℚ)) * ((t - c : Nat) : ℚ))

/-- A fresh enrollment id: one more than the largest id in use. -/
def freshEnrollmentId (db : DB) : Nat :=
  (db.enrollments.map Enrollment.id).foldr max 0 + 1

/-- Modelled from the spec: the signal that populates progress records on
enrollment creation is not in the provided source; per §4.2 `seed` creates
one record per lesson of the course, all incomplete, atomically with the
enrollment. -/
def seedRecords (db : DB) (eid cid : Nat) : List Progress :=
  (lessonsOf db cid).map fun l =>
    { enrollmentId := eid, lessonId := l.id, completed := false,
      completedAt := none, lastAccessed := none }

/-- `enroll_in_course` (views.py): 403 unless the caller is a student, 404
unless a published course with the slug exists, 400 if any enrollment row
for (student, course) exists (the filter carries no `is_active` condition),
else creates the enrollment and its seeded records. -/
def enroll_in_course (db : DB) (u : User) (slug : String) (t : Int) :
    Except ApiError (Nat × DB) :=
  if u.role ≠ "student" then .error .permissionDenied
  else
    match db.courses.find? fun c => c.slug = slug && c.status = "published" with
    | none => .error .notFound
    | some course =>
      if db.enrollments.any fun e => e.studentId = u.id && e.courseId = course.id then
        .error .alreadyEnrolled
      else
        let eid := freshEnrollmentId db
        let enr : Enrollment :=
          { id := eid, studentId := u.id, courseId := course.id,
            enrolledAt := t, completedAt := none, isActive := true }
        .ok (eid,
          { db with
            enrollments := enr :: db.enrollments,
            progresses := db.progresses ++ seedRecords db eid course.id })

/-- Modelled from the spec: `Progress.mark_complete` has no visible body in
the source; per §4.2 it sets `completed`, stamps `completed_at = now` only
on the false-to-true transition, and refreshes `last_accessed` always. -/
def markRecord (p : Progress) (t : Int) : Progress :=
  { p with
    completed := true,
    completedAt := if p.completed then p.completedAt else some t,
    lastAccessed := some t }

/-- Modelled from the spec: the reset operation referenced by the URL table
(`reset_lesson_progress`) is not in the provided source; per §4.2 it clears
`completed` and `completed_at`. -/
def resetRecord (p : Progress) : Progress :=
  { p with completed := false, completedAt := none }

/-- Modelled from the spec: the enrollment-level rollup recomputation is not
in the provided source; per §3 and §4.4 `completed_at` is set (once) when
all records are complete and at least one exists, and cleared otherwise, in
the same step as the triggering mark or reset. -/
def rollupUpdate (db : DB) (eid : Nat) (t : Int) (e : Enrollment) : Enrollment :=
  if e.id = eid then
    { e with completedAt :=
        if !(enrollmentRecords db e.id).isEmpty
            && (enrollmentRecords db e.id).all (fun p => p.completed) then
          match e.completedAt with
          | some x => some x
          | none => some t
        else none }
  else e

/-- Modelled from the spec: the enrollment-level rollup recomputation, see
`rollupUpdate`. -/
def recomputeRollup (db : DB) (eid : Nat) (t : Int) : DB :=
  { db with enrollments := db.enrollments.map (rollupUpdate db eid t) }

/-- `complete_lesson` (views.py): 404 unless an enrollment with the given id
and owned by the caller exists, 404 unless a progress record for
(enrollment, lesson) exists, else marks it complete (and the rollup is
recomputed in the same step). -/
def complete_lesson (db : DB) (uid eid lid : Nat) (t : Int) :
    Except ApiError (Progress × DB) :=
  match db.enrollments.find? fun e => e.id = eid && e.studentId = uid with
  | none => .error .notFound
  | some _ =>
    match db.progresses.find? fun p => p.enrollmentId = eid && p.lessonId = lid with
    | none => .error .notFound
    | some p =>
      let p1 := markRecord p t
      let db1 := { db with
        progresses := db.progresses.map fun q =>
          if q.enrollmentId = eid && q.lessonId = lid then p1 else q }
      .ok (p1, recomputeRollup db1 eid t)

/-- Modelled from the spec: `reset_lesson_progress` (referenced by the URL
table, body not in the provided source); per §4.2 it clears the record and
per §4.4 triggers the rollup recheck. -/
def reset_lesson_progress (db : DB) (uid eid lid : Nat) (t : Int) :
    Except ApiError (Progress × DB) :=
  match db.enrollments.find? fun e => e.id = eid && e.studentId = uid with
  | none => .error .notFound
  | some _ =>
    match db.progresses.find? fun p => p.enrollmentId = eid && p.lessonId = lid with
    | none => .error .notFound
    | some p =>
      let p1 := resetRecord p
      let db1 := { db with
        progresses := db.progresses.map fun q =>
          if q.enrollmentId = eid && q.lessonId = lid then p1 else q }
      .ok (p1, recomputeRollup db1 eid t)

/-- Modelled from the spec: `unenroll_from_course` (referenced by the URL
table, body not in the provided source); per §4.4 it marks the enrollment
inactive and retains the progress records. -/
def unenroll_from_course (db : DB) (uid eid : Nat) : Except ApiError DB :=
  match db.enrollments.find? fun e => e.id = eid && e.studentId = uid with
  | none => .error .notFound
  | some _ =>
    .ok { db with
      enrollments := db.enrollments.map fun e =>
        if e.id = eid then { e with isActive := false } else e }

/-- `EnrollmentListView.get_queryset` (views.py): the current user's active
enrollments. -/
def enrollment_list_queryset (db : DB) (uid : Nat) : List Enrollment :=
  db.enrollments.filter fun e => e.studentId = uid && e.isActive

/-- States reachable by the engine from a state with no enrollments and no
progress records, through the enrollment/progress operations and the
addition of lessons to the content graph. -/
inductive Reachable : DB → Prop where
  | init (db : DB) (he : db.enrollments = []) (hp : db.progresses = []) :
      Reachable db
  | enroll {db : DB} {u : User} {slug : String} {t : Int} {eid : Nat} {dbn : DB} :
      Reachable db → enroll_in_course db u slug t = .ok (eid, dbn) → Reachable dbn
  | complete {db : DB} {uid eid lid : Nat} {t : Int} {p : Progress} {dbn : DB} :
      Reachable db → complete_lesson db uid eid lid t = .ok (p, dbn) → Reachable dbn
  | reset {db : DB} {uid eid lid : Nat} {t : Int} {p : Progress} {dbn : DB} :
      Reachable db → reset_lesson_progress db uid eid lid t = .ok (p, dbn) → Reachable dbn
  | unenroll {db : DB} {uid eid : Nat} {dbn : DB} :
      Reachable db → unenroll_from_course db uid eid = .ok dbn → Reachable dbn
  | addLesson {db : DB} (l : Lesson) :
      Reachable db → Reachable { db with lessons := l :: db.lessons }

/-- Every progress record belongs to an existing enrollment. -/
def ledgerOwned (db : DB) : Prop :=
  ∀ p ∈ db.progresses, ∃ e ∈ db.enrollments, p.enrollmentId = e.id

/-- The rollup invariant: an enrollment's `completed_at` is set exactly when
it owns at least one progress record and all of them are complete. -/
def rollupConsistent (db : DB) : Prop :=
  ∀ e ∈ db.enrollments,
    (e.completedAt ≠ none ↔
      (enrollmentRecords db e.id ≠ [] ∧
        ∀ p ∈ enrollmentRecords db e.id, p.completed = true))

/-- A progress record for the pair (enrollment `eid`, lesson `lid`) exists
and is visible to user `uid`: the enrollment exists, is owned by the caller,
and a record for that lesson belongs to it. -/
def visibleRecord (db : DB) (uid eid lid : Nat) : Prop :=
  ∃ e ∈ db.enrollments, e.id = eid ∧ e.studentId = uid ∧
    ∃ p ∈ db.progresses, p.enrollmentId = eid ∧ p.lessonId = lid

/-- A concrete student. -/
def exUser : User := { id := 10, role := "student" }

/-- A concrete initial state: one published course with one module holding
two lessons, no enrollments, no progress records. -/
def exDb0 : DB :=
  { courses := [{ id := 1, slug := "c", status := "published" }],
    modules := [{ id := 1, courseId := 1, order := 0 }],
    lessons := [{ id := 1, moduleId := 1, order := 0, durationMinutes := 5 },
                { id := 2, moduleId := 1, order := 1, durationMinutes := 7 }],
    enrollments := [],
    progresses := [] }

/-- The state after the student enrolls in the course. -/
def exDb1 : DB :=
  match enroll_in_course exDb0 exUser "c" 0 with
  | .ok (_, d) => d
  | .error _ => exDb0

/-- The state after the student additionally completes lesson 1 at time 5. -/
def exDb2 : DB :=
  match complete_lesson exDb1 10 1 1 5 with
  | .ok (_, d) => d
  | .error _ => exDb1

/-- The state after the student additionally completes lesson 2 at time 9. -/
def exDb3 : DB :=
  match complete_lesson exDb2 10 1 2 9 with
  | .ok (_, d) => d
  | .error _ => exDb2

/-- The state after the student, freshly enrolled, unenrolls again. -/
def exDbU : DB :=
  match unenroll_from_course exDb1 10 1 with
  | .ok d => d
  | .error _ => exDb1

/-- A concrete state with one enrollment owning 201 progress records of
which exactly one is completed. -/
def exDb201 : DB :=
  { courses := [{ id := 1, slug := "big", status := "published" }],
    modules := [{ id := 1, courseId := 1, order := 0 }],
    lessons := (List.range 201).map fun i =>
      { id := i + 1, moduleId := 1, order := i, durationMinutes := 1 },
    enrollments := [{ id := 1, studentId := 10, courseId := 1, enrolledAt := 0,
                      completedAt := none, isActive := true }],
    progresses := (List.range 201).map fun i =>
      { enrollmentId := 1, lessonId := i + 1, completed := decide (i = 0),
        completedAt := if i = 0 then some 1 else none, lastAccessed := none } }

/-- A concrete state with one enrollment owning 201 progress records of
which exactly 200 are completed. -/
def exDb201b : DB :=
  { courses := [{ id := 1, slug := "big", status := "published" }],
    modules := [{ id := 1, courseId := 1, order := 0 }],
    lessons := (List.range 201).map fun i =>
      { id := i + 1, moduleId := 1, order := i, durationMinutes := 1 },
    enrollments := [{ id := 1, studentId := 10, courseId := 1, enrolledAt := 0,
                      completedAt := none, isActive := true }],
    progresses := (List.range 201).map fun i =>
      { enrollmentId := 1, lessonId := i + 1, completed := decide (0 < i),
        completedAt := if 0 < i then some 1 else none, lastAccessed := none } }

/-- A concrete state in which an enrollment owns two progress records while
its course currently has three lessons (one added after enrollment). -/
def exDbLive : DB :=
  { courses := [{ id := 1, slug := "c", status := "published" }],
    modules := [{ id := 1, courseId := 1, order := 0 }],
    lessons := [{ id := 1, moduleId := 1, order := 0, durationMinutes := 5 },
                { id := 2, moduleId := 1, order := 1, durationMinutes := 7 },
                { id := 3, moduleId := 1, order := 2, durationMinutes := 9 }],
    enrollments := [{ id := 1, studentId := 10, courseId := 1, enrolledAt := 0,
                      completedAt := none, isActive := true }],
    progresses := [{ enrollmentId := 1, lessonId := 1, completed := false,
                     completedAt := none, lastAccessed := none },
                   { enrollmentId := 1, lessonId := 2, completed := false,
                     completedAt := none, lastAccessed := none }] }

/-- The concrete enrollment row shared by the concrete states above. -/
def exEnr : Enrollment :=
  { id := 1, studentId := 10, courseId := 1, enrolledAt := 0,
    completedAt := none, isActive := true }

/-- The lesson added to the concrete course after `exEnr` was seeded. -/
def exNewLesson : Lesson :=
  { id := 3, moduleId := 1, order := 2, durationMinutes := 9 }

theorem keyLe_refl (a : Nat × Nat) : keyLe a a = true := by
  simp [keyLe]

theorem keyLe_trans (a b c : Nat × Nat) (h1 : keyLe a b = true)
    (h2 : keyLe b c = true) : keyLe a c = true := by
  simp only [keyLe, Bool.or_eq_true, Bool.and_eq_true, decide_eq_true_eq] at h1 h2 ⊢
  omega

theorem keyLe_total (a b : Nat × Nat) : (keyLe a b || keyLe b a) = true := by
  simp only [keyLe, Bool.or_eq_true, Bool.and_eq_true, decide_eq_true_eq]
  omega

/-- C10: the enrollment listing returns exactly the requesting user's active
enrollments: an enrollment is in the queryset iff it is stored, belongs to
the requesting user, and its active flag is set. -/
theorem enrollment_list_exactly_own_active (db : DB) (uid : Nat) (e : Enrollment) :
    e ∈ enrollment_list_queryset db uid ↔
      e ∈ db.enrollments ∧ e.studentId = uid ∧ e.isActive = true := by
  simp [enrollment_list_queryset, List.mem_filter, and_assoc]

set_option maxRecDepth 40000 in
/-- C3 counterexample: in a state whose enrollment owns 201 progress records
with exactly one completed, the reported percentage is 0 although the
completed count is 1; and with 200 of the 201 completed, the percentage is
100 although the enrollment is not complete.  Both claimed equivalences
fail. -/
theorem percentage_zero_iff_cex :
    progress_percentage exDb201 1 = 0 ∧ completedCount exDb201 1 = 1 ∧
    progress_percentage exDb201b 1 = 100 ∧ is_completed exDb201b 1 = false := by
  refine ⟨rfl, rfl, rfl, rfl⟩

/-- C3 amended: with the rounded percentage, 0 is reported exactly when the
completed fraction is below one half percent (or there are no records), and
100 exactly when the completed fraction is at least 199/200; the claimed
equivalences hold only in those regimes. -/
theorem percentage_boundary_characterization (db : DB) (eid : Nat) :
    (progress_percentage db eid = 0 ↔
      (totalCount db eid = 0 ∨ 200 * completedCount db eid < totalCount db eid)) ∧
    (progress_percentage db eid = 100 ↔
      (0 < totalCount db eid ∧ 199 * totalCount db eid ≤ 200 * completedCount db eid)) := by
  have hct : completedCount db eid ≤ totalCount db eid := List.countP_le_length _
  unfold progress_percentage
  by_cases ht : totalCount db eid = 0
  · simp [ht]
  · have htpos : 0 < totalCount db eid := Nat.pos_of_ne_zero ht
    have h2t : 0 < 2 * totalCount db eid := by omega
    have h1 : (200 * completedCount db eid + totalCount db eid) / (2 * totalCount db eid) = 0 ↔
        200 * completedCount db eid + totalCount db eid < 2 * totalCount db eid :=
      Nat.div_eq_zero_iff h2t
    have h2 : 100 ≤ (200 * completedCount db eid + totalCount db eid) / (2 * totalCount db eid) ↔
        100 * (2 * totalCount db eid) ≤ 200 * completedCount db eid + totalCount db eid :=
      Nat.le_div_iff_mul_le h2t
    have h3 : (200 * completedCount db eid + totalCount db eid) / (2 * totalCount db eid) < 101 ↔
        200 * completedCount db eid + totalCount db eid < 101 * (2 * totalCount db eid) :=
      Nat.div_lt_iff_lt_mul h2t
    simp only [if_neg ht]
    generalize hD : (200 * completedCount db eid + totalCount db eid) / (2 * totalCount db eid) = D at h1 h2 h3
    omega

/-- C2 counterexample: in a state where the enrollment owns two progress
records while its course currently has three lessons, the serializer's
total is 3 (the live course count), not the 2 records owned by the
enrollment, refuting the claim that the total equals the enrollment's
record count. -/
theorem total_lessons_snapshot_cex :
    get_total_lessons exDbLive exEnr = 3 ∧ totalCount exDbLive exEnr.id = 2 := by
  constructor
  · rfl
  · rfl

/-- C2 amended: the serializer's `total_lessons` is the course's current
(live) lesson count, so adding a lesson to the course after enrollment
increases the reported total by one; it does not stay at the enrollment-time
snapshot. -/
theorem total_lessons_is_live_count (db : DB) (e : Enrollment) (l : Lesson)
    (h : ((db.modules.find? fun m => m.id = l.moduleId).any
        fun m => m.courseId = e.courseId) = true) :
    get_total_lessons db e = (courseLessons db e.courseId).length ∧
    get_total_lessons { db with lessons := l :: db.lessons } e =
      get_total_lessons db e + 1 := by
  refine ⟨rfl, ?_⟩
  simp [get_total_lessons, course_total_lessons, courseLessons, List.filter_cons, h]

/-- Witness for the amended C2 statement at a concrete state: adding a third
lesson to the course of `exDb1` raises the serialized total from 2 to 3. -/
theorem total_lessons_is_live_count_witness :
    get_total_lessons exDb1 exEnr = (courseLessons exDb1 exEnr.courseId).length ∧
    get_total_lessons { exDb1 with lessons := exNewLesson :: exDb1.lessons } exEnr =
      get_total_lessons exDb1 exEnr + 1 :=
  total_lessons_is_live_count exDb1 exEnr exNewLesson (by rfl)

/-- C1 counterexample: in `exDbU` every stored enrollment is inactive (the
student explicitly unenrolled), yet a fresh `enroll` for the same student
and course fails with the already-enrolled error, refuting the claim that
the error occurs exactly when an active enrollment exists and that
re-enrollment after unenroll succeeds. -/
theorem enroll_after_unenroll_cex :
    exDbU.enrollments.all (fun e => !e.isActive) = true ∧
    enroll_in_course exDbU exUser "c" 0 = .error .alreadyEnrolled := by
  constructor
  · rfl
  · rfl

/-- C1 amended: for a student caller and a published course, `enroll` fails
with the already-enrolled error exactly when some enrollment row for the
(student, course) pair exists, active or not; the duplicate check carries no
active-flag condition, so re-enrollment after unenroll is rejected. -/
theorem enroll_duplicate_any_record (db : DB) (u : User) (slug : String)
    (t : Int) (c : Course)
    (hu : u.role = "student")
    (hc : (db.courses.find? fun c2 => c2.slug = slug && c2.status = "published") =
      some c) :
    enroll_in_course db u slug t = .error .alreadyEnrolled ↔
      ∃ e ∈ db.enrollments, e.studentId = u.id ∧ e.courseId = c.id := by
  unfold enroll_in_course
  rw [if_neg (by simp [hu]), hc]
  by_cases hany :
      (db.enrollments.any fun e => e.studentId = u.id && e.courseId = c.id) = true
  · have hany2 := hany
    simp only [List.any_eq_true, Bool.and_eq_true, decide_eq_true_eq] at hany2
    simp [hany, hany2]
  · have hany2 := hany
    simp only [List.any_eq_true, Bool.and_eq_true, decide_eq_true_eq] at hany2
    simp [hany, hany2]

/-- Witness for the amended C1 statement at a concrete state: in `exDbU`
(one inactive enrollment row) the duplicate error is equivalent to the
existence of some enrollment row for the pair. -/
theorem enroll_duplicate_any_record_witness :
    enroll_in_course exDbU exUser "c" 0 = .error .alreadyEnrolled ↔
      ∃ e ∈ exDbU.enrollments, e.studentId = exUser.id ∧
        e.courseId = (Course.mk 1 "c" "published").id :=
  enroll_duplicate_any_record exDbU exUser "c" 0 (Course.mk 1 "c" "published")
    rfl (by rfl)

/-- C8: `complete_lesson` answers not-found exactly when no progress record
for the (enrollment, lesson) pair is visible to the caller (no enrollment
with that id owned by the caller, or no record for that lesson under it);
when a visible record exists the call succeeds. -/
theorem complete_lesson_notfound_iff (db : DB) (uid eid lid : Nat) (t : Int) :
    (complete_lesson db uid eid lid t = .error .notFound ↔
      ¬ visibleRecord db uid eid lid) ∧
    (visibleRecord db uid eid lid →
      ∃ p dbn, complete_lesson db uid eid lid t = .ok (p, dbn)) := by
  unfold complete_lesson
  cases hfe : db.enrollments.find? fun e => e.id = eid && e.studentId = uid with
  | none =>
    rw [List.find?_eq_none] at hfe
    have hnv : ¬ visibleRecord db uid eid lid := by
      rintro ⟨e, he, hid, hstu, -⟩
      exact hfe e he (by simp [hid, hstu])
    simp [hnv]
  | some e0 =>
    cases hfp : db.progresses.find? fun p => p.enrollmentId = eid && p.lessonId = lid with
    | none =>
      rw [List.find?_eq_none] at hfp
      have hnv : ¬ visibleRecord db uid eid lid := by
        rintro ⟨e, he, hid, hstu, p, hp, hpe, hpl⟩
        exact hfp p hp (by simp [hpe, hpl])
      simp [hnv]
    | some p0 =>
      have he0m := List.mem_of_find?_eq_some hfe
      have he0p := List.find?_some hfe
      have hp0m := List.mem_of_find?_eq_some hfp
      have hp0p := List.find?_some hfp
      simp only [Bool.and_eq_true, decide_eq_true_eq] at he0p hp0p
      have hv : visibleRecord db uid eid lid :=
        ⟨e0, he0m, he0p.1, he0p.2, p0, hp0m, hp0p.1, hp0p.2⟩
      simp [hv]

/-- Witness for C8 at a concrete state: in `exDb1` the record for lesson 1
is visible to student 10, and the call succeeds. -/
theorem complete_lesson_notfound_iff_witness :
    ∃ p dbn, complete_lesson exDb1 10 1 1 5 = .ok (p, dbn) :=
  (complete_lesson_notfound_iff exDb1 10 1 1 5).2
    ⟨exEnr,
      by rw [show exDb1.enrollments = [exEnr] from rfl]; exact List.mem_cons_self _ _,
      rfl, rfl,
      { enrollmentId := 1, lessonId := 1, completed := false,
        completedAt := none, lastAccessed := none },
      by
        rw [show exDb1.progresses =
          [{ enrollmentId := 1, lessonId := 1, completed := false,
             completedAt := none, lastAccessed := none },
           { enrollmentId := 1, lessonId := 2, completed := false,
             completedAt := none, lastAccessed := none }] from rfl]
        exact List.mem_cons_self _ _,
      rfl, rfl⟩

/-- C9: the estimated completion date is unavailable (null) when no lesson
is completed; when nothing remains it is the enrollment's own rollup
`completed_at`; otherwise it is now + pace * remaining with pace the span
from enrollment creation to the latest completion divided by the completed
count. -/
theorem estimated_date_cases (db : DB) (e : Enrollment) (now : Int) :
    (completedCount db e.id = 0 →
      calculate_estimated_completion_date db e now = none) ∧
    (0 < completedCount db e.id →
      totalCount db e.id - completedCount db e.id = 0 →
      calculate_estimated_completion_date db e now =
        e.completedAt.map (fun x => (x : ℚ))) ∧
    (0 < completedCount db e.id →
      0 < totalCount db e.id - completedCount db e.id →
      calculate_estimated_completion_date db e now =
        some ((now : ℚ) +
          (((latestCompletion db e : ℚ) - (e.enrolledAt : ℚ)) /
            (completedCount db e.id : ℚ)) *
          ((totalCount db e.id - completedCount db e.id : Nat) : ℚ))) := by
  refine ⟨?_, ?_, ?_⟩
  · intro h
    simp [calculate_estimated_completion_date, h]
  · intro h1 h2
    simp only [calculate_estimated_completion_date]
    rw [if_neg (by omega), if_pos h2]
  · intro h1 h2
    simp only [calculate_estimated_completion_date]
    rw [if_neg (by omega), if_neg (by omega)]

/-- Witness for C9 at a concrete state: the fresh enrollment of `exDb1` has
no completed lesson, so its estimated completion date is null. -/
theorem estimated_date_cases_witness :
    calculate_estimated_completion_date exDb1 exEnr 10 = none :=
  (estimated_date_cases exDb1 exEnr 10).1 rfl

/-- C6: `next_lesson` returns none exactly when no lesson of the course has
an incomplete progress record under the enrollment (all complete, or zero
lessons); and when it returns a lesson, that lesson has an incomplete record
and is least in the canonical (module order, lesson order) ordering among
all lessons with incomplete records — no other criterion influences the
choice. -/
theorem next_lesson_first_incomplete (db : DB) (e : Enrollment) :
    (get_next_lesson db e = none ↔
      ∀ l ∈ courseLessons db e.courseId, incompleteFor db e.id l = false) ∧
    (∀ l, get_next_lesson db e = some l →
      l ∈ courseLessons db e.courseId ∧ incompleteFor db e.id l = true ∧
      ∀ l2 ∈ courseLessons db e.courseId, incompleteFor db e.id l2 = true →
        lessonLe db l l2) := by
  constructor
  · unfold get_next_lesson lessonsOf
    rw [List.find?_eq_none]
    constructor
    · intro h l hl
      have hm : l ∈ List.insertionSort (lessonLe db) (courseLessons db e.courseId) :=
        (List.perm_insertionSort _ _).mem_iff.mpr hl
      simpa using h l hm
    · intro h l hl
      have hm : l ∈ courseLessons db e.courseId :=
        (List.perm_insertionSort _ _).mem_iff.mp hl
      simpa using h l hm
  · intro l hfind
    unfold get_next_lesson lessonsOf at hfind
    have hpl := List.find?_some hfind
    have hml := List.mem_of_find?_eq_some hfind
    have hmem : l ∈ courseLessons db e.courseId :=
      (List.perm_insertionSort _ _).mem_iff.mp hml
    refine ⟨hmem, hpl, ?_⟩
    intro l2 hl2 hinc2
    rw [List.find?_eq_some] at hfind
    obtain ⟨-, as, bs, hsplit, hpre⟩ := hfind
    have hsorted : List.Sorted (lessonLe db)
        (List.insertionSort (lessonLe db) (courseLessons db e.courseId)) :=
      List.sorted_insertionSort _ _
    have hl2mem : l2 ∈ List.insertionSort (lessonLe db) (courseLessons db e.courseId) :=
      (List.perm_insertionSort _ _).mem_iff.mpr hl2
    rw [hsplit] at hl2mem hsorted
    rcases List.mem_append.mp hl2mem with h2a | h2b
    · exact absurd hinc2 (by simpa using hpre l2 h2a)
    · rcases List.mem_cons.mp h2b with h2e | h2bs
      · subst h2e
        simp [lessonLe, keyLe_refl]
      · have hp1 := (List.pairwise_append.mp hsorted).2.1
        exact (List.pairwise_cons.mp hp1).1 l2 h2bs

/-- Witness for C6 at a concrete state: after completing lesson 1 of the
two-lesson course, the returned next lesson (lesson 2) is incomplete and
canonically least among incomplete lessons. -/
theorem next_lesson_first_incomplete_witness :
    (Lesson.mk 2 1 1 7) ∈ courseLessons exDb2 exEnr.courseId ∧
    incompleteFor exDb2 exEnr.id (Lesson.mk 2 1 1 7) = true ∧
    ∀ l2 ∈ courseLessons exDb2 exEnr.courseId,
      incompleteFor exDb2 exEnr.id l2 = true →
        lessonLe exDb2 (Lesson.mk 2 1 1 7) l2 :=
  (next_lesson_first_incomplete exDb2 exEnr).2 (Lesson.mk 2 1 1 7) rfl

theorem rollupUpdate_id (db : DB) (eid : Nat) (t : Int) (e : Enrollment) :
    (rollupUpdate db eid t e).id = e.id := by
  unfold rollupUpdate
  by_cases h : e.id = eid <;> simp [h]

theorem rollupUpdate_studentId (db : DB) (eid : Nat) (t : Int) (e : Enrollment) :
    (rollupUpdate db eid t e).studentId = e.studentId := by
  unfold rollupUpdate
  by_cases h : e.id = eid <;> simp [h]

/-- Looking up an enrollment by id and owner commutes with the rollup
recomputation, which changes no id and no owner. -/
theorem find_enrollment_recompute (db2 : DB) (eid2 : Nat) (t : Int) (uid eid : Nat) :
    ((recomputeRollup db2 eid2 t).enrollments.find?
        fun e2 => e2.id = eid && e2.studentId = uid) =
      (db2.enrollments.find? fun e2 => e2.id = eid && e2.studentId = uid).map
        (rollupUpdate db2 eid2 t) := by
  unfold recomputeRollup
  rw [List.find?_map]
  have hcomp : ((fun e2 => e2.id = eid && e2.studentId = uid) ∘ rollupUpdate db2 eid2 t) =
      fun e2 => e2.id = eid && e2.studentId = uid := by
    funext e2
    simp [Function.comp, rollupUpdate_id, rollupUpdate_studentId]
  rw [hcomp]

/-- Looking up the record for a (enrollment, lesson) pair in the list where
that pair has been replaced by a record with the same keys finds the
replacement exactly when the original lookup found a record. -/
theorem find_pair_map_update (l : List Progress) (eid lid : Nat) (pn : Progress)
    (hpe : pn.enrollmentId = eid) (hpl : pn.lessonId = lid) :
    ((l.map fun q => if q.enrollmentId = eid && q.lessonId = lid then pn else q).find?
        fun p => p.enrollmentId = eid && p.lessonId = lid) =
      ((l.find? fun p => p.enrollmentId = eid && p.lessonId = lid).map
        fun q => if q.enrollmentId = eid && q.lessonId = lid then pn else q) := by
  rw [List.find?_map]
  have hcomp : ((fun p => p.enrollmentId = eid && p.lessonId = lid) ∘ fun q =>
      if q.enrollmentId = eid && q.lessonId = lid then pn else q) =
      fun p => p.enrollmentId = eid && p.lessonId = lid := by
    funext q
    by_cases h : (q.enrollmentId = eid && q.lessonId = lid) = true
    · simp [Function.comp, h, hpe, hpl]
    · simp [Function.comp, h]
  rw [hcomp]

/-- C7: marking an existing record complete twice succeeds both times; after
the second call the record is still complete with `completed_at` exactly as
after the first call, and on the false-to-true transition the first call
stamps `completed_at` with its own clock value. -/
theorem mark_complete_idempotent (db : DB) (uid eid lid : Nat) (t1 t2 : Int)
    (p0 p1 : Progress) (db1 : DB)
    (h0 : (db.progresses.find? fun p => p.enrollmentId = eid && p.lessonId = lid) =
      some p0)
    (h1 : complete_lesson db uid eid lid t1 = .ok (p1, db1)) :
    (complete_lesson db1 uid eid lid t2).map (fun r => (r.1.completed, r.1.completedAt)) =
      .ok (true, p1.completedAt) ∧
    (p0.completed = false → p1.completedAt = some t1) := by
  have hp0pair := List.find?_some h0
  simp only [Bool.and_eq_true, decide_eq_true_eq] at hp0pair
  unfold complete_lesson at h1
  cases hfe : db.enrollments.find? fun e2 => e2.id = eid && e2.studentId = uid with
  | none =>
    rw [hfe] at h1
    cases h1
  | some e0 =>
    rw [hfe, h0] at h1
    simp only [Except.ok.injEq, Prod.mk.injEq] at h1
    obtain ⟨hp1, hdb1⟩ := h1
    subst hp1
    subst hdb1
    constructor
    · unfold complete_lesson
      rw [find_enrollment_recompute, hfe]
      have hfp1 : ((recomputeRollup
            { db with progresses := db.progresses.map fun q =>
                if q.enrollmentId = eid && q.lessonId = lid then markRecord p0 t1 else q }
            eid t1).progresses.find? fun p => p.enrollmentId = eid && p.lessonId = lid) =
          some (markRecord p0 t1) := by
        show ((db.progresses.map fun q =>
            if q.enrollmentId = eid && q.lessonId = lid then markRecord p0 t1 else q).find?
              fun p => p.enrollmentId = eid && p.lessonId = lid) = _
        rw [find_pair_map_update _ _ _ _ (by simp [markRecord, hp0pair.1])
          (by simp [markRecord, hp0pair.2]), h0]
        simp [hp0pair.1, hp0pair.2]
      rw [hfp1]
      simp [markRecord, Except.map]
    · intro hfalse
      simp [markRecord, hfalse]

/-- Witness for C7 at a concrete state: completing lesson 1 of `exDb1` at
time 5 and again at time 7 keeps the record complete with the original
completion stamp. -/
theorem mark_complete_idempotent_witness :
    (complete_lesson exDb2 10 1 1 7).map (fun r => (r.1.completed, r.1.completedAt)) =
      .ok (true, some 5) ∧
    ((false : Bool) = false → (some (5 : Int) : Option Int) = some 5) :=
  mark_complete_idempotent exDb1 10 1 1 5 7
    { enrollmentId := 1, lessonId := 1, completed := false,
      completedAt := none, lastAccessed := none }
    { enrollmentId := 1, lessonId := 1, completed := true,
      completedAt := some 5, lastAccessed := some 5 }
    exDb2 rfl rfl

theorem id_le_enrollment_bound (l : List Enrollment) (e : Enrollment) (h : e ∈ l) :
    e.id ≤ (l.map Enrollment.id).foldr max 0 := by
  induction l with
  | nil => cases h
  | cons a as ih =>
    simp only [List.map_cons, List.foldr_cons]
    rcases List.mem_cons.mp h with h1 | h2
    · subst h1
      exact Nat.le_max_left _ _
    · exact le_trans (ih h2) (Nat.le_max_right _ _)

/-- In a state whose ledger rows all belong to existing enrollments, the
fresh enrollment id is owned by no existing progress row and no existing
enrollment. -/
theorem fresh_id_unused (db : DB) (hown : ledgerOwned db) :
    (∀ e ∈ db.enrollments, e.id ≠ freshEnrollmentId db) ∧
    (∀ p ∈ db.progresses, p.enrollmentId ≠ freshEnrollmentId db) := by
  constructor
  · intro e he
    have := id_le_enrollment_bound db.enrollments e he
    unfold freshEnrollmentId
    omega
  · intro p hp
    obtain ⟨e, he, hpe⟩ := hown p hp
    have := id_le_enrollment_bound db.enrollments e he
    unfold freshEnrollmentId
    omega

/-- C4: a successful enroll leaves, for the new enrollment, exactly one
progress record per lesson of the course at that instant, in canonical
order, all incomplete — in particular exactly N records for an N-lesson
course.  In this embedding the enrollment row and its seeded records are
created in one step, so no state with a partially seeded enrollment is
observable. -/
theorem enroll_seeds_exactly (db : DB) (u : User) (slug : String) (t : Int)
    (eid : Nat) (dbn : DB) (c : Course)
    (hown : ledgerOwned db)
    (hc : (db.courses.find? fun c2 => c2.slug = slug && c2.status = "published") =
      some c)
    (h : enroll_in_course db u slug t = .ok (eid, dbn)) :
    (enrollmentRecords dbn eid).map (fun p => p.lessonId) =
      (lessonsOf db c.id).map (fun l => l.id) ∧
    (∀ p ∈ enrollmentRecords dbn eid, p.completed = false) ∧
    (enrollmentRecords dbn eid).length = (lessonsOf db c.id).length := by
  unfold enroll_in_course at h
  split at h
  · cases h
  · split at h
    · cases h
    · rename_i course hfound
      rw [hc] at hfound
      injection hfound with hcc
      subst hcc
      split at h
      · cases h
      · simp only [Except.ok.injEq, Prod.mk.injEq] at h
        obtain ⟨heid, hdbn⟩ := h
        subst heid
        subst hdbn
        have hrecs : enrollmentRecords
            { db with
              enrollments :=
                { id := freshEnrollmentId db, studentId := u.id, courseId := c.id,
                  enrolledAt := t, completedAt := none, isActive := true } :: db.enrollments,
              progresses := db.progresses ++ seedRecords db (freshEnrollmentId db) c.id }
            (freshEnrollmentId db) = seedRecords db (freshEnrollmentId db) c.id := by
          unfold enrollmentRecords
          rw [List.filter_append]
          have hold : db.progresses.filter
              (fun p => p.enrollmentId = freshEnrollmentId db) = [] := by
            rw [List.filter_eq_nil_iff]
            intro p hp
            have := (fresh_id_unused db hown).2 p hp
            simp [this]
          have hseed : (seedRecords db (freshEnrollmentId db) c.id).filter
              (fun p => p.enrollmentId = freshEnrollmentId db) =
              seedRecords db (freshEnrollmentId db) c.id := by
            rw [List.filter_eq_self]
            intro p hp
            unfold seedRecords at hp
            obtain ⟨l0, -, hl0⟩ := List.mem_map.mp hp
            subst hl0
            simp
          rw [hold, hseed, List.nil_append]
        rw [hrecs]
        refine ⟨?_, ?_, ?_⟩
        · unfold seedRecords
          rw [List.map_map]
          rfl
        · intro p hp
          unfold seedRecords at hp
          obtain ⟨l0, -, hl0⟩ := List.mem_map.mp hp
          subst hl0
          rfl
        · unfold seedRecords
          rw [List.length_map]

/-- Witness for C4 at a concrete state: enrolling the student in the
two-lesson course of `exDb0` seeds records for exactly lessons 1 and 2, all
incomplete. -/
theorem enroll_seeds_exactly_witness :
    (enrollmentRecords exDb1 1).map (fun p => p.lessonId) =
      (lessonsOf exDb0 1).map (fun l => l.id) ∧
    (∀ p ∈ enrollmentRecords exDb1 1, p.completed = false) ∧
    (enrollmentRecords exDb1 1).length = (lessonsOf exDb0 1).length :=
  enroll_seeds_exactly exDb0 exUser "c" 0 1 exDb1
    (Course.mk 1 "c" "published")
    (fun p hp => absurd hp (by simp [exDb0])) rfl rfl

/-- Seeded records belong to the fresh enrollment only, so the records of
any other enrollment are untouched by seeding. -/
theorem records_append_seed_ne (db : DB) (eid cid x : Nat) (hx : x ≠ eid) :
    (db.progresses ++ seedRecords db eid cid).filter (fun p => p.enrollmentId = x) =
      enrollmentRecords db x := by
  rw [List.filter_append]
  have hz : (seedRecords db eid cid).filter (fun p => p.enrollmentId = x) = [] := by
    rw [List.filter_eq_nil_iff]
    intro p hp
    obtain ⟨l0, -, hl0⟩ := List.mem_map.mp hp
    subst hl0
    simp only [decide_eq_true_eq]
    omega
  rw [hz, List.append_nil]
  rfl

/-- The records of the fresh enrollment right after seeding are exactly the
seeded records, provided every pre-existing ledger row is owned by an
existing enrollment. -/
theorem filter_progress_append_seed (db : DB) (cid : Nat) (hown : ledgerOwned db) :
    (db.progresses ++ seedRecords db (freshEnrollmentId db) cid).filter
      (fun p => p.enrollmentId = freshEnrollmentId db) =
      seedRecords db (freshEnrollmentId db) cid := by
  rw [List.filter_append]
  have hold : db.progresses.filter
      (fun p => p.enrollmentId = freshEnrollmentId db) = [] := by
    rw [List.filter_eq_nil_iff]
    intro p hp
    have := (fresh_id_unused db hown).2 p hp
    simp [this]
  have hseed : (seedRecords db (freshEnrollmentId db) cid).filter
      (fun p => p.enrollmentId = freshEnrollmentId db) =
      seedRecords db (freshEnrollmentId db) cid := by
    rw [List.filter_eq_self]
    intro p hp
    obtain ⟨l0, -, hl0⟩ := List.mem_map.mp hp
    subst hl0
    simp
  rw [hold, hseed, List.nil_append]

/-- Replacing the record of the pair (eid, lid) by a record with owner `eid`
leaves the record set of every other enrollment unchanged. -/
theorem records_map_update_ne (l : List Progress) (eid lid x : Nat) (pn : Progress)
    (hpe : pn.enrollmentId = eid) (hx : x ≠ eid) :
    (l.map fun q => if q.enrollmentId = eid && q.lessonId = lid then pn else q).filter
      (fun p => p.enrollmentId = x) = l.filter (fun p => p.enrollmentId = x) := by
  induction l with
  | nil => rfl
  | cons a as ih =>
    simp only [List.map_cons, List.filter_cons]
    by_cases h : (a.enrollmentId = eid && a.lessonId = lid) = true
    · have ha : a.enrollmentId = eid := by
        simp only [Bool.and_eq_true, decide_eq_true_eq] at h
        exact h.1
      have hax : (decide (a.enrollmentId = x)) = false := by
        simp only [decide_eq_false_iff_not]
        omega
      have hpx : (decide (pn.enrollmentId = x)) = false := by
        simp only [decide_eq_false_iff_not]
        omega
      rw [if_pos h]
      simp only [hax, hpx, Bool.false_eq_true, if_false]
      exact ih
    · rw [if_neg h]
      by_cases h2 : (decide (a.enrollmentId = x)) = true
      · simp only [h2, if_true]
        rw [ih]
      · simp only [h2, Bool.false_eq_true, if_false]  -- h2 false
        exact ih

/-- Enrolling preserves ledger ownership and the rollup invariant: the new
enrollment starts with `completed_at` null and owns only its seeded,
incomplete records; every other enrollment's records are untouched. -/
theorem invariant_after_enroll (db2 : DB) (uid cid : Nat) (t : Int)
    (ih : ledgerOwned db2 ∧ rollupConsistent db2) :
    ledgerOwned
      { courses := db2.courses, modules := db2.modules, lessons := db2.lessons,
        enrollments :=
          { id := freshEnrollmentId db2, studentId := uid, courseId := cid,
            enrolledAt := t, completedAt := none, isActive := true } :: db2.enrollments,
        progresses := db2.progresses ++ seedRecords db2 (freshEnrollmentId db2) cid } ∧
    rollupConsistent
      { courses := db2.courses, modules := db2.modules, lessons := db2.lessons,
        enrollments :=
          { id := freshEnrollmentId db2, studentId := uid, courseId := cid,
            enrolledAt := t, completedAt := none, isActive := true } :: db2.enrollments,
        progresses := db2.progresses ++ seedRecords db2 (freshEnrollmentId db2) cid } := by
  constructor
  · intro p hp
    rcases List.mem_append.mp hp with hold | hseed
    · obtain ⟨e, he, hpe⟩ := ih.1 p hold
      exact ⟨e, List.mem_cons_of_mem _ he, hpe⟩
    · obtain ⟨l0, -, hl0⟩ := List.mem_map.mp hseed
      subst hl0
      exact ⟨_, List.mem_cons_self _ _, rfl⟩
  · intro e2 he2
    rcases List.mem_cons.mp he2 with h1 | h2
    · subst h1
      refine iff_of_false (by simp) ?_
      rintro ⟨hne, hall⟩
      simp only [enrollmentRecords] at hne hall
      rw [filter_progress_append_seed db2 cid ih.1] at hne hall
      cases hls : lessonsOf db2 cid with
      | nil =>
        apply hne
        simp [seedRecords, hls]
      | cons l0 ls =>
        have hmem : Progress.mk (freshEnrollmentId db2) l0.id false none none ∈
            seedRecords db2 (freshEnrollmentId db2) cid := by
          unfold seedRecords
          rw [hls]
          exact List.mem_map.mpr ⟨l0, List.mem_cons_self _ _, rfl⟩
        have := hall _ hmem
        simp at this
    · have hx : e2.id ≠ freshEnrollmentId db2 := (fresh_id_unused db2 ih.1).1 e2 h2
      have hrecs := records_append_seed_ne db2 (freshEnrollmentId db2) cid e2.id hx
      simp only [enrollmentRecords] at hrecs ⊢
      rw [hrecs]
      have := ih.2 e2 h2
      simpa [enrollmentRecords] using this

/-- Updating the record of pair (eid, lid) with a record owned by `eid` and
then recomputing the rollup for `eid` preserves ledger ownership and the
rollup invariant: the recomputation makes the invariant hold for the touched
enrollment by construction, while every other enrollment keeps its records
and its rollup. -/
theorem invariant_after_update (db2 : DB) (eid lid : Nat) (t : Int) (pn : Progress)
    (hpe : pn.enrollmentId = eid)
    (ih : ledgerOwned db2 ∧ rollupConsistent db2) :
    ledgerOwned (recomputeRollup
        { courses := db2.courses, modules := db2.modules, lessons := db2.lessons,
          enrollments := db2.enrollments,
          progresses := db2.progresses.map fun q =>
            if q.enrollmentId = eid && q.lessonId = lid then pn else q } eid t) ∧
    rollupConsistent (recomputeRollup
        { courses := db2.courses, modules := db2.modules, lessons := db2.lessons,
          enrollments := db2.enrollments,
          progresses := db2.progresses.map fun q =>
            if q.enrollmentId = eid && q.lessonId = lid then pn else q } eid t) := by
  constructor
  · intro p hp
    obtain ⟨q, hq, hgq⟩ := List.mem_map.mp hp
    have hqid : p.enrollmentId = q.enrollmentId := by
      by_cases h : (q.enrollmentId = eid && q.lessonId = lid) = true
      · simp only [Bool.and_eq_true, decide_eq_true_eq] at h
        rw [← hgq]
        simp [h.1, h.2, hpe]
      · rw [← hgq]
        simp [h]
    obtain ⟨e, he, hqe⟩ := ih.1 q hq
    refine ⟨_, List.mem_map.mpr ⟨e, he, rfl⟩, ?_⟩
    rw [rollupUpdate_id]
    exact hqid.trans hqe
  · intro e2 he2
    obtain ⟨e0, he0, hfe0⟩ := List.mem_map.mp he2
    subst hfe0
    by_cases hcase : e0.id = eid
    · rw [show rollupUpdate
          { courses := db2.courses, modules := db2.modules, lessons := db2.lessons,
            enrollments := db2.enrollments,
            progresses := db2.progresses.map fun q =>
              if q.enrollmentId = eid && q.lessonId = lid then pn else q } eid t e0 =
          { e0 with completedAt :=
              if !((db2.progresses.map fun q =>
                    if q.enrollmentId = eid && q.lessonId = lid then pn else q).filter
                      fun p => p.enrollmentId = e0.id).isEmpty
                  && ((db2.progresses.map fun q =>
                    if q.enrollmentId = eid && q.lessonId = lid then pn else q).filter
                      fun p => p.enrollmentId = e0.id).all (fun p => p.completed) then
                match e0.completedAt with
                | some x => some x
                | none => some t
              else none }
        from by unfold rollupUpdate enrollmentRecords; rw [if_pos hcase]]
      simp only [enrollmentRecords, recomputeRollup]
      split
      · rename_i hcond
        refine iff_of_true ?_ ?_
        · cases e0.completedAt <;> simp
        · rw [Bool.and_eq_true, Bool.not_eq_true', List.isEmpty_eq_false,
            List.all_eq_true] at hcond
          exact hcond
      · rename_i hcond
        refine iff_of_false (by simp) ?_
        intro hr
        apply hcond
        rw [Bool.and_eq_true, Bool.not_eq_true', List.isEmpty_eq_false,
          List.all_eq_true]
        exact hr
    · rw [show rollupUpdate
          { courses := db2.courses, modules := db2.modules, lessons := db2.lessons,
            enrollments := db2.enrollments,
            progresses := db2.progresses.map fun q =>
              if q.enrollmentId = eid && q.lessonId = lid then pn else q } eid t e0 = e0
        from by unfold rollupUpdate; rw [if_neg hcase]]
      have hrecs := records_map_update_ne db2.progresses eid lid e0.id pn hpe hcase
      simp only [enrollmentRecords, recomputeRollup]
      rw [hrecs]
      have := ih.2 e0 he0
      simpa [enrollmentRecords] using this

/-- Every reachable state keeps both invariants: ledger rows belong to
existing enrollments, and each enrollment's `completed_at` is set exactly
when it owns at least one record and all of them are complete. -/
theorem reachable_invariant (db : DB) (h : Reachable db) :
    ledgerOwned db ∧ rollupConsistent db := by
  induction h with
  | init db0 he hp =>
    constructor
    · intro p hp2
      rw [hp] at hp2
      cases hp2
    · intro e he2
      rw [he] at he2
      cases he2
  | @enroll db2 u slug t eid dbn hr hstep ih =>
    unfold enroll_in_course at hstep
    split at hstep
    · cases hstep
    · split at hstep
      · cases hstep
      · rename_i course hfound
        split at hstep
        · cases hstep
        · simp only [Except.ok.injEq, Prod.mk.injEq] at hstep
          obtain ⟨heid, hdbn⟩ := hstep
          subst hdbn
          exact invariant_after_enroll db2 u.id course.id t ih
  | @complete db2 uid eid lid t p dbn hr hstep ih =>
    unfold complete_lesson at hstep
    split at hstep
    · cases hstep
    · split at hstep
      · cases hstep
      · rename_i p0 hfp
        have hp0 := List.find?_some hfp
        simp only [Bool.and_eq_true, decide_eq_true_eq] at hp0
        simp only [Except.ok.injEq, Prod.mk.injEq] at hstep
        obtain ⟨-, hdbn⟩ := hstep
        subst hdbn
        exact invariant_after_update db2 eid lid t (markRecord p0 t)
          (by simp [markRecord, hp0.1]) ih
  | @reset db2 uid eid lid t p dbn hr hstep ih =>
    unfold reset_lesson_progress at hstep
    split at hstep
    · cases hstep
    · split at hstep
      · cases hstep
      · rename_i p0 hfp
        have hp0 := List.find?_some hfp
        simp only [Bool.and_eq_true, decide_eq_true_eq] at hp0
        simp only [Except.ok.injEq, Prod.mk.injEq] at hstep
        obtain ⟨-, hdbn⟩ := hstep
        subst hdbn
        exact invariant_after_update db2 eid lid t (resetRecord p0)
          (by simp [resetRecord, hp0.1]) ih
  | @unenroll db2 uid eid dbn hr hstep ih =>
    unfold unenroll_from_course at hstep
    split at hstep
    · cases hstep
    · simp only [Except.ok.injEq] at hstep
      subst hstep
      constructor
      · intro p hp2
        obtain ⟨e, he, hpe⟩ := ih.1 p hp2
        refine ⟨if e.id = eid then { e with isActive := false } else e,
          List.mem_map.mpr ⟨e, he, rfl⟩, ?_⟩
        by_cases h : e.id = eid <;> simp [h, hpe]
      · intro e2 he2
        obtain ⟨e0, he0, hfe0⟩ := List.mem_map.mp he2
        subst hfe0
        have hca : (if e0.id = eid then { e0 with isActive := false } else e0).completedAt =
            e0.completedAt := by
          by_cases h : e0.id = eid <;> simp [h]
        have hid2 : (if e0.id = eid then { e0 with isActive := false } else e0).id =
            e0.id := by
          by_cases h : e0.id = eid <;> simp [h]
        rw [hca, hid2]
        exact ih.2 e0 he0
  | @addLesson db2 l hr ih =>
    exact ih

/-- C5: in every reachable state, an enrollment's `completed_at` is non-null
exactly when the enrollment owns at least one progress record and all of its
records are complete.  Since `complete_lesson` and the reset recompute the
rollup in the same step as the record change, marking the final incomplete
lesson sets `completed_at` in that step and a subsequent reset clears it in
that step. -/
theorem rollup_consistent_reachable (db : DB) (h : Reachable db) :
    rollupConsistent db :=
  (reachable_invariant db h).2

/-- Witness for C5 at a concrete reachable state: enrolling in the
two-lesson course and completing both lessons yields a state satisfying the
rollup invariant (its single enrollment has `completed_at` set). -/
theorem rollup_consistent_reachable_witness : rollupConsistent exDb3 :=
  rollup_consistent_reachable exDb3
    (@Reachable.complete exDb2 10 1 2 9
      (Progress.mk 1 2 true (some 9) (some 9)) exDb3
      (@Reachable.complete exDb1 10 1 1 5
        (Progress.mk 1 1 true (some 5) (some 5)) exDb2
        (@Reachable.enroll exDb0 exUser "c" 0 1 exDb1
          (Reachable.init exDb0 rfl rfl) rfl) rfl) rfl)

end Elearn
